import Mathlib

/-!
Shallow embedding of the hybrid recommendation/search engine of
`backend/app/ml/recommender.py`, `backend/app/ml/train.py` and
`backend/app/api/routes.py`, together with proofs about the embedded
operations.

Modelling conventions, chosen once for the whole file:

* Floating point numbers are modelled by the exact integers `ℤ`.  Every
  property proved here (ordering of results, aggregation, emptiness,
  bijectivity of the id maps) is arithmetic-generic; none of it uses
  division, so an ordered commutative ring suffices and `ℤ` keeps every
  definition kernel-computable.
* `np.log1p`, a transcendental real function, is modelled by an abstract
  dampening parameter `damp : ℤ → ℤ`.  The code only ever applies it to a
  quantity strictly greater than zero; where positivity of the dampened
  weight matters a theorem takes it as an explicit hypothesis.
* Python dictionaries are association lists looked up with `dictGet`;
  dictionary comprehensions over `enumerate` become `List.enum`.
* `np.argsort` sorts ascending; for small inputs numpy uses an insertion
  sort, which is stable, so argsort is modelled as sorting the index list
  `0, 1, ...` by the total order: score first and, on ties, index.
* `faiss.IndexFlatL2` is exact brute-force squared-L2 search; its result
  is modelled as all item indices sorted ascending by distance with ties
  broken by lower index, truncated to `k` and padded with the sentinel
  index `-1` (the padding distance faiss reports is irrelevant here: the
  serving layer filters sentinel rows out, so the model uses `0`).
* The sentence-transformer embedding is an abstract `encode : String → List ℤ`.
* The truncated SVD of scikit-learn is an abstract oracle producing the two
  factor matrices; the one piece of behaviour of `TruncatedSVD` that the
  claims depend on is kept concrete: with the default `algorithm="randomized"`
  it raises when `n_components > n_features` and never reduces the rank.
-/

namespace RecSys

/-- Python dict lookup on an association list: the first binding of the key
wins, `none` when the key is absent. -/
def dictGet {α β : Type} [DecidableEq α] (d : List (α × β)) (k : α) : Option β :=
  (d.find? (fun p => decide (p.1 = k))).map (fun p => p.2)

/-- Helper for `uniqueFirst`: keeps the elements of the first list that are
not in `seen`, first occurrence only, in order. -/
def uniqueFirstAux {α : Type} [DecidableEq α] : List α → List α → List α
  | [], _ => []
  | x :: xs, seen =>
      if x ∈ seen then uniqueFirstAux xs seen
      else x :: uniqueFirstAux xs (x :: seen)

/-- The pandas `Series.unique`: all distinct values in first-seen order. -/
def uniqueFirst {α : Type} [DecidableEq α] (l : List α) : List α :=
  uniqueFirstAux l []

/-- The dict comprehension `{v: i for i, v in enumerate(l)}` (external id to
internal index), as built for `user_map` and `reverse_product_map`. -/
def indexMapOf {α : Type} (l : List α) : List (α × Nat) :=
  l.enum.map (fun p => (p.2, p.1))

/-- The dict comprehension `{i: v for i, v in enumerate(l)}` (internal index
to external id), as built for `reverse_user_map` and `product_map`. -/
def idMapOf {α : Type} (l : List α) : List (Nat × α) :=
  l.enum

/-- One row of the transactions dataframe used for training. -/
structure Txn where
  user_id : String
  stock_code : String
  quantity : ℤ
deriving DecidableEq

/-- One row of the products dataframe used for training. -/
structure Product where
  _id : String
  description : String
deriving DecidableEq

/-- The value `transactions_df.user_id.map(user_map).fillna(-1)` gives one
transaction: the internal user index, or `-1` when the user is unmapped. -/
def txnUserIdx (user_map : List (String × Nat)) (t : Txn) : Int :=
  match dictGet user_map t.user_id with
  | some i => (i : Int)
  | none => -1

/-- The value `transactions_df.stock_code.map(reverse_product_map).fillna(-1)`
gives one transaction: the internal item index, or `-1` when unmapped. -/
def txnItemIdx (reverse_product_map : List (String × Nat)) (t : Txn) : Int :=
  match dictGet reverse_product_map t.stock_code with
  | some i => (i : Int)
  | none => -1

/-- The dampened weight `np.log1p(x) if x > 0 else 0` of one transaction,
with the dampening transform abstracted as `damp`. -/
def txnWeight (damp : ℤ → ℤ) (t : Txn) : ℤ :=
  if 0 < t.quantity then damp t.quantity else 0

/-- Cell `(u, i)` of the interaction matrix of `_train_sync` (lines 77-88):
transactions are first restricted to stock codes present in
`reverse_product_map` (the `isin` filter), then to rows whose mapped user and
item indices are both nonnegative (the `valid_mask`), and the `csr_matrix`
constructor sums the weights of all entries that landed on the same cell. -/
def interactionCell (damp : ℤ → ℤ) (txns : List Txn)
    (user_map reverse_product_map : List (String × Nat)) (u i : Nat) : ℤ :=
  ((((txns.filter
        (fun t => (dictGet reverse_product_map t.stock_code).isSome)).filter
        (fun t => decide (0 ≤ txnUserIdx user_map t) &&
                  decide (0 ≤ txnItemIdx reverse_product_map t))).filter
        (fun t => decide (txnUserIdx user_map t = (u : Int)) &&
                  decide (txnItemIdx reverse_product_map t = (i : Int)))).map
        (txnWeight damp)).sum

/-- Cell `(u, i)` of the interaction matrix as the specification words it:
drop interactions with quantity at most zero, drop interactions whose user or
item id is absent from the registry, aggregate the survivors of the `(u, i)`
group by summing the dampened quantity. -/
def specInteractionCell (damp : ℤ → ℤ) (txns : List Txn)
    (user_map reverse_product_map : List (String × Nat)) (u i : Nat) : ℤ :=
  ((txns.filter
      (fun t => decide (0 < t.quantity) &&
                decide (dictGet user_map t.user_id = some u) &&
                decide (dictGet reverse_product_map t.stock_code = some i))).map
      (fun t => damp t.quantity)).sum

/-- Dot product `np.dot` of two vectors (trailing entries of the longer vector
are ignored, as the shapes agree in every real call). -/
def dot : List ℤ → List ℤ → ℤ
  | [], _ => 0
  | _, [] => 0
  | a :: as, b :: bs => a * b + dot as bs

/-- Column `i` of a row-major matrix (entry `row[i]` of every row). -/
def col (m : List (List ℤ)) (i : Nat) : List ℤ :=
  m.map (fun row => row.getD i 0)

/-- Squared Euclidean distance, the metric of `faiss.IndexFlatL2`. -/
def sqDist (p q : List ℤ) : ℤ :=
  (List.zipWith (fun a b => (a - b) * (a - b)) p q).sum

/-- The state the recommender holds after one training run: the four id
dictionaries, the SVD user factors and components, the faiss item vectors and
the product metadata of `HybridRecommender`.  In the source these live as
mutable attributes of the singleton object; a fully built set of them is the
model artifact of one build. -/
structure Artifact where
  user_map : List (String × Nat)
  reverse_user_map : List (Nat × String)
  product_map : List (Nat × String)
  reverse_product_map : List (String × Nat)
  user_factors : List (List ℤ)
  components : List (List ℤ)
  item_vectors : List (List ℤ)
  product_data : List (String × String)
deriving DecidableEq

/-- Number of items an artifact scores: the column count of
`svd_model.components_` (the width of its first row). -/
def numItems (A : Artifact) : Nat :=
  (A.components.headD []).length

/-- The score vector `np.dot(user_vector, item_matrix)` of recommend line 154:
one dot product of the user factor row with each component column. -/
def scoresOf (A : Artifact) (uidx : Nat) : List ℤ :=
  (List.range (numItems A)).map
    (fun i => dot (A.user_factors.getD uidx []) (col A.components i))

/-- Comparison used to model `np.argsort`: ascending by score, ties kept in
index order (numpy sorting of the already-increasing index list is observed
to keep equal keys in index order; this makes the order total, so the sorted
result is unique). -/
def idxLe (scores : List ℤ) (i j : Nat) : Prop :=
  scores.getD i 0 < scores.getD j 0 ∨
    (scores.getD i 0 = scores.getD j 0 ∧ i ≤ j)

instance (scores : List ℤ) : DecidableRel (idxLe scores) :=
  fun i j =>
    inferInstanceAs (Decidable (scores.getD i 0 < scores.getD j 0 ∨
      (scores.getD i 0 = scores.getD j 0 ∧ i ≤ j)))

instance (scores : List ℤ) : IsTotal Nat (idxLe scores) where
  total i j := by
    rcases lt_trichotomy (scores.getD i 0) (scores.getD j 0) with h | h | h
    · exact Or.inl (Or.inl h)
    · rcases Nat.le_total i j with hij | hij
      · exact Or.inl (Or.inr ⟨h, hij⟩)
      · exact Or.inr (Or.inr ⟨h.symm, hij⟩)
    · exact Or.inr (Or.inl h)

instance (scores : List ℤ) : IsTrans Nat (idxLe scores) where
  trans i j l hij hjl := by
    rcases hij with h1 | ⟨e1, le1⟩
    · rcases hjl with h2 | ⟨e2, _⟩
      · exact Or.inl (h1.trans h2)
      · exact Or.inl (e2 ▸ h1)
    · rcases hjl with h2 | ⟨e2, le2⟩
      · exact Or.inl (e1 ▸ h2)
      · exact Or.inr ⟨e1.trans e2, le1.trans le2⟩

/-- The model of `np.argsort(scores)`: index list sorted ascending. -/
def argsortAsc (scores : List ℤ) : List Nat :=
  List.insertionSort (idxLe scores) (List.range scores.length)

/-- The index selection `np.argsort(scores)[::-1][:top_k]` of recommend
line 157. -/
def topIndices (scores : List ℤ) (k : Nat) : List Nat :=
  (argsortAsc scores).reverse.take k

/-- One element of the result list of `HybridRecommender.recommend`: the
dict `{"stock_code": ..., "score": ..., "name": ...}` (the name is `None`
when the metadata lookup misses). -/
structure RecItem where
  stock_code : String
  score : ℤ
  name : Option String
deriving DecidableEq

/-- Result construction of recommend lines 159-168: for each selected index,
look the stock code up in `product_map`, keep it only when the code is truthy
(a non-empty string), and attach score and metadata description. -/
def recommendKnown (A : Artifact) (uidx k : Nat) : List RecItem :=
  (topIndices (scoresOf A uidx) k).filterMap
    (fun idx =>
      match dictGet A.product_map idx with
      | none => none
      | some code =>
          if code = "" then none
          else some { stock_code := code,
                      score := (scoresOf A uidx).getD idx 0,
                      name := dictGet A.product_data code })

/-- Index-annotated variant of `recommendKnown`, used to state ordering
properties that speak about internal indices. -/
def recommendDetailed (A : Artifact) (uidx k : Nat) : List (Nat × String × ℤ) :=
  (topIndices (scoresOf A uidx) k).filterMap
    (fun idx =>
      match dictGet A.product_map idx with
      | none => none
      | some code =>
          if code = "" then none
          else some (idx, code, (scoresOf A uidx).getD idx 0))

/-- The serving entry `HybridRecommender.recommend` (lines 131-168).  The
engine state is `none` while no artifact has ever been built or loaded (the
`initialized` flag is false and the lazy `load_models` retry found no model
files); in that state, and for a user id missing from `user_map`, the call
returns the empty list without an error. -/
def recommend (engine : Option Artifact) (user_id : String) (top_k : Nat) :
    List RecItem :=
  match engine with
  | none => []
  | some A =>
      match dictGet A.user_map user_id with
      | none => []
      | some uidx => recommendKnown A uidx top_k

/-- Lookup of a faiss result index (an `int64`, possibly the sentinel `-1`)
in the `Nat`-keyed `product_map`: the membership test `idx in product_map` of
search line 189. -/
def dictGetI {β : Type} (d : List (Nat × β)) (i : Int) : Option β :=
  if i < 0 then none else dictGet d i.toNat

/-- Comparison of faiss hits: ascending distance, ties broken by the lower
internal index (faiss flat search resolves equal distances by id to keep
results deterministic). -/
def hitLe (a b : Int × ℤ) : Prop :=
  a.2 < b.2 ∨ (a.2 = b.2 ∧ a.1 ≤ b.1)

instance : DecidableRel hitLe :=
  fun a b => inferInstanceAs (Decidable (a.2 < b.2 ∨ (a.2 = b.2 ∧ a.1 ≤ b.1)))

instance : IsTotal (Int × ℤ) hitLe where
  total a b := by
    rcases lt_trichotomy a.2 b.2 with h | h | h
    · exact Or.inl (Or.inl h)
    · rcases le_total a.1 b.1 with hab | hab
      · exact Or.inl (Or.inr ⟨h, hab⟩)
      · exact Or.inr (Or.inr ⟨h.symm, hab⟩)
    · exact Or.inr (Or.inl h)

instance : IsTrans (Int × ℤ) hitLe where
  trans a b c hab hbc := by
    rcases hab with h1 | ⟨e1, le1⟩
    · rcases hbc with h2 | ⟨e2, _⟩
      · exact Or.inl (h1.trans h2)
      · exact Or.inl (e2 ▸ h1)
    · rcases hbc with h2 | ⟨e2, le2⟩
      · exact Or.inl (e1 ▸ h2)
      · exact Or.inr ⟨e1.trans e2, le1.trans le2⟩

/-- Strict version of `hitLe` on distinct indices: ascending distance, ties
with the strictly lower index first. -/
def hitLt (a b : Int × ℤ) : Prop :=
  a.2 < b.2 ∨ (a.2 = b.2 ∧ a.1 < b.1)

/-- Every stored vector compared with the query: index paired with its exact
squared Euclidean distance (the brute-force scan of `IndexFlatL2`). -/
def scoredHits (vecs : List (List ℤ)) (q : List ℤ) : List (Int × ℤ) :=
  (List.range vecs.length).map
    (fun (i : Nat) => ((i : Int), sqDist (vecs.getD i []) q))

/-- The scanned hits sorted ascending by distance, ties by lower index. -/
def sortedHits (vecs : List (List ℤ)) (q : List ℤ) : List (Int × ℤ) :=
  List.insertionSort hitLe (scoredHits vecs q)

/-- The model of `faiss_index.search` for an `IndexFlatL2` over `vecs` with
a single query: every stored vector is compared with the query (exact
brute-force), hits are sorted ascending, the first `k` are returned, and when
fewer than `k` vectors exist the rows are padded with the sentinel index `-1`
(the distance faiss reports in a padding row never reaches the caller here,
so the model fills in `0`). -/
def faissSearch (vecs : List (List ℤ)) (q : List ℤ) (k : Nat) :
    List (Int × ℤ) :=
  let top := (sortedHits vecs q).take k
  top ++ List.replicate (k - top.length) ((-1 : Int), (0 : ℤ))

/-- One element of the result list of `HybridRecommender.search`: the dict
`{"stock_code": ..., "description": ..., "score": ...}`. -/
structure SearchItem where
  stock_code : String
  description : String
  score : ℤ
deriving DecidableEq

/-- Result construction of search lines 187-196: keep the hits whose index is
a key of `product_map` (this drops the `-1` padding), and attach the metadata
description, defaulting to `"Unknown"`. -/
def searchWithVec (A : Artifact) (qv : List ℤ) (top_k : Nat) :
    List SearchItem :=
  (faissSearch A.item_vectors qv top_k).filterMap
    (fun p =>
      match dictGetI A.product_map p.1 with
      | none => none
      | some code =>
          some { stock_code := code,
                 description := (dictGet A.product_data code).getD "Unknown",
                 score := p.2 })

/-- One faiss hit turned into an index-annotated result row: `none` when the
hit index is not a key of `product_map` (in particular for the `-1`
padding). -/
def searchRow (A : Artifact) (p : Int × ℤ) : Option (Nat × String × ℤ) :=
  match dictGetI A.product_map p.1 with
  | none => none
  | some code => some (p.1.toNat, code, p.2)

/-- Index-annotated variant of `searchWithVec`, used to state ordering
properties that speak about internal indices. -/
def searchDetailed (A : Artifact) (qv : List ℤ) (top_k : Nat) :
    List (Nat × String × ℤ) :=
  (faissSearch A.item_vectors qv top_k).filterMap (searchRow A)

/-- The serving entry `HybridRecommender.search` (lines 170-196), with the
sentence-transformer text encoder abstracted as `encode`.  The engine state
is as in `recommend`. -/
def search (engine : Option Artifact) (encode : String → List ℤ)
    (query : String) (top_k : Nat) : List SearchItem :=
  match engine with
  | none => []
  | some A => searchWithVec A (encode query) top_k

/-- Type of the truncated-SVD oracle: given the requested component count,
the interaction matrix (as a cell function) and its two dimensions, it
returns the pair `(user_factors, components)`.  The numeric content of the
decomposition is abstract; `trainSync` is parametric in it. -/
def SvdFn : Type :=
  Nat → (Nat → Nat → ℤ) → Nat → Nat → List (List ℤ) × List (List ℤ)

/-- Error message of scikit-learn `TruncatedSVD` (randomized algorithm) when
the requested component count exceeds the feature count. -/
def svdErrorMsg : String :=
  "n_components(50) must be <= n_features."

/-- The artifact `_train_sync` builds and publishes on the success path: the
four dictionaries over the distinct transaction users and the product codes,
the factor matrices produced by the rank-50 truncated SVD of the interaction
matrix, one embedding vector per product description, and the metadata
table. -/
def artifactOf (damp : ℤ → ℤ) (embed : String → List ℤ) (svd : SvdFn)
    (txns : List Txn) (products : List Product) : Artifact :=
  let unique_users := uniqueFirst (txns.map (fun t => t.user_id))
  let user_map := indexMapOf unique_users
  let item_codes := products.map (fun p => p._id)
  let reverse_product_map := indexMapOf item_codes
  let factors := svd 50 (interactionCell damp txns user_map reverse_product_map)
    unique_users.length item_codes.length
  { user_map := user_map
    reverse_user_map := idMapOf unique_users
    product_map := idMapOf item_codes
    reverse_product_map := reverse_product_map
    user_factors := factors.1
    components := factors.2
    item_vectors := products.map (fun p => embed p.description)
    product_data := products.map (fun p => (p._id, p.description)) }

/-- The synchronous training body `HybridRecommender._train_sync`
(lines 62-129).  It builds the id maps and the interaction matrix, then runs
`TruncatedSVD(n_components=50)`; with the default randomized algorithm
scikit-learn raises as soon as the item count is below 50 (`n_components >
n_features`), and the function contains no step that lowers the rank and no
check on the number of nonzero interaction cells.  On success every engine
field is replaced with the data of this build. -/
def trainSync (damp : ℤ → ℤ) (embed : String → List ℤ) (svd : SvdFn)
    (txns : List Txn) (products : List Product) : Except String Artifact :=
  if products.length < 50 then Except.error svdErrorMsg
  else Except.ok (artifactOf damp embed svd txns products)

/-- Outcome of one run of the background task `train_model_task`. -/
inductive TrainOutcome where
  | skipped
  | published (a : Artifact)
  | failed (msg : String)
deriving DecidableEq

/-- True exactly on the `published` outcome. -/
def TrainOutcome.isPublished : TrainOutcome → Bool
  | TrainOutcome.published _ => true
  | _ => false

/-- The training task `train_model_task` of `train.py` (lines 13-49) applied
to a snapshot: when the snapshot holds no transaction rows at all the task
returns early without touching the engine; otherwise it runs `_train_sync`,
which on success replaces the published artifact and on an exception leaves
the previous one in place. -/
def train_model_task (damp : ℤ → ℤ) (embed : String → List ℤ) (svd : SvdFn)
    (txns : List Txn) (products : List Product) (current : Option Artifact) :
    TrainOutcome × Option Artifact :=
  if txns = [] then (TrainOutcome.skipped, current)
  else
    match trainSync damp embed svd txns products with
    | Except.ok a => (TrainOutcome.published a, some a)
    | Except.error e => (TrainOutcome.failed e, current)

/-- The mutable attributes of the `HybridRecommender` singleton that both
`_train_sync` (as writer) and `recommend` (as reader) touch. -/
inductive MField where
  | user_map
  | reverse_user_map
  | reverse_product_map
  | product_map
  | svd_model
  | faiss_index
  | product_data
  | user_factors
deriving DecidableEq

/-- The in-place assignment order of `_train_sync`: `self.user_map` (line 70),
`self.reverse_user_map` (71), `self.reverse_product_map` (74),
`self.product_map` (75), `self.svd_model` (90), `self.faiss_index` (103),
`self.product_data` (106), `self.user_factors` (107). -/
def trainWrites : List MField :=
  [MField.user_map, MField.reverse_user_map, MField.reverse_product_map,
   MField.product_map, MField.svd_model, MField.faiss_index,
   MField.product_data, MField.user_factors]

/-- The attribute read order of one `recommend` call: `self.user_map`
(lines 142, 145), `self.user_factors` (148, 151), `self.svd_model.components_`
(152), `self.product_map` (161), `self.product_data` (166). -/
def recommendReads : List MField :=
  [MField.user_map, MField.user_factors, MField.svd_model,
   MField.product_map, MField.product_data]

/-- An event of the two-thread execution: the training thread assigns a field,
the serving thread reads one.  Training runs on an executor thread while the
event loop serves requests, so any interleaving of the two sequences can
occur. -/
inductive MEv where
  | write (f : MField)
  | read (f : MField)
deriving DecidableEq

/-- Schedule validity: the writes of the schedule are exactly the training
write sequence in order, the reads exactly the serving read sequence in
order. -/
def isInterleaving (sched : List MEv) (ws rs : List MField) : Bool :=
  (sched.filterMap (fun e => match e with | MEv.write f => some f | _ => none)
    = ws) &&
  (sched.filterMap (fun e => match e with | MEv.read f => some f | _ => none)
    = rs)

/-- Runs a schedule over the singleton state.  Each field carries the build
number that last assigned it: `0` for the previously published build, `1`
after the training run under way has assigned it.  The result collects, for
every read, the build number the reader observed for that field. -/
def runSched : List MEv → List (MField × Nat) → List (MField × Nat)
  | [], _ => []
  | MEv.write f :: rest, st => runSched rest ((f, 1) :: st)
  | MEv.read f :: rest, st => (f, (dictGet st f).getD 0) :: runSched rest st

/-- A set of observations is torn when two reads of the same call saw fields
written by different builds. -/
def torn (obs : List (MField × Nat)) : Bool :=
  obs.any (fun p => obs.any (fun q => decide (p.2 ≠ q.2)))

/-- A concrete interleaving: the serving call runs entirely between the map
assignments (lines 70-75) and the factor assignments (lines 90-107) of the
training thread. -/
def tornSched : List MEv :=
  [MEv.write MField.user_map, MEv.write MField.reverse_user_map,
   MEv.write MField.reverse_product_map, MEv.write MField.product_map,
   MEv.read MField.user_map, MEv.read MField.user_factors,
   MEv.read MField.svd_model, MEv.read MField.product_map,
   MEv.read MField.product_data,
   MEv.write MField.svd_model, MEv.write MField.faiss_index,
   MEv.write MField.product_data, MEv.write MField.user_factors]

/-- The schedule in which the serving call completes before the training
thread starts writing. -/
def readsFirstSched : List MEv :=
  recommendReads.map MEv.read ++ trainWrites.map MEv.write

/-- The schedule in which the serving call starts after the training thread
finished all its writes. -/
def readsLastSched : List MEv :=
  trainWrites.map MEv.write ++ recommendReads.map MEv.read

/-- Response of the `POST /train` route. -/
inductive TriggerResponse where
  | accepted
  | rejectedBusy
deriving DecidableEq

/-- Scheduler state visible to the route: how many training builds are
currently in progress.  FastAPI runs the background task of each request
after that response on its own, concurrently with tasks of other requests,
and `HybridRecommender.train` moves the work onto an executor thread, so
every accepted request adds one concurrently running build. -/
structure ApiState where
  building : Nat
deriving DecidableEq

/-- The route `trigger_training` of `routes.py` (lines 27-31): it reads no
state, unconditionally schedules `train_model_task` as a background task and
always answers that training started. -/
def trigger_training (s : ApiState) : TriggerResponse × ApiState :=
  (TriggerResponse.accepted, { building := s.building + 1 })

/-- Serving contract of `recommend` for a known user, stated over the
index-annotated result: the returned list is the detailed list stripped of
indices, has at most `k` entries, is sorted by strictly descending score with
equal scores listed with the larger internal index first, and every entry
carries the dot product of the user factor row with the component column of
its index together with the stock code registered for that index. -/
def RecommendOk (A : Artifact) (uid : String) (k uidx : Nat) : Prop :=
  recommend (some A) uid k =
    (recommendDetailed A uidx k).map
      (fun p => { stock_code := p.2.1, score := p.2.2,
                  name := dictGet A.product_data p.2.1 }) ∧
  (recommendDetailed A uidx k).length ≤ k ∧
  List.Pairwise
    (fun p q => q.2.2 < p.2.2 ∨ (q.2.2 = p.2.2 ∧ q.1 < p.1))
    (recommendDetailed A uidx k) ∧
  ∀ p ∈ recommendDetailed A uidx k,
    p.1 < numItems A ∧
    dictGet A.product_map p.1 = some p.2.1 ∧
    p.2.2 = dot (A.user_factors.getD uidx []) (col A.components p.1)

/-- Serving contract of `search` over the index-annotated result: the
returned list is the detailed list stripped of indices, has at most `k`
entries, is sorted ascending by exact squared Euclidean distance with ties
broken by the lower internal index, and every entry carries the distance of
the query to the stored vector of its index together with the registered
stock code. -/
def SearchOk (A : Artifact) (qv : List ℤ) (k : Nat) : Prop :=
  (∀ encode : String → List ℤ, ∀ query : String, encode query = qv →
      search (some A) encode query k = searchWithVec A qv k) ∧
  searchWithVec A qv k =
    (searchDetailed A qv k).map
      (fun p => { stock_code := p.2.1,
                  description := (dictGet A.product_data p.2.1).getD "Unknown",
                  score := p.2.2 }) ∧
  (searchDetailed A qv k).length ≤ k ∧
  List.Pairwise
    (fun p q => p.2.2 < q.2.2 ∨ (p.2.2 = q.2.2 ∧ p.1 < q.1))
    (searchDetailed A qv k) ∧
  ∀ p ∈ searchDetailed A qv k,
    p.1 < A.item_vectors.length ∧
    dictGet A.product_map p.1 = some p.2.1 ∧
    p.2.2 = sqDist (A.item_vectors.getD p.1 []) qv

/-- Brute-force completeness of `search`: an item index that does not occur
in the result is at least as far from the query as every returned item (on
equal distance, it has the larger index). -/
def SearchComplete (A : Artifact) (qv : List ℤ) (k : Nat) : Prop :=
  ∀ i, i < A.item_vectors.length →
    (∀ p ∈ searchDetailed A qv k, p.1 ≠ i) →
    ∀ p ∈ searchDetailed A qv k,
      p.2.2 < sqDist (A.item_vectors.getD i []) qv ∨
      (p.2.2 = sqDist (A.item_vectors.getD i []) qv ∧ p.1 < i)

/-- What the training entry points actually do with degenerate snapshots:
the task skips only when the snapshot has no transaction rows at all, fails
(keeping the current artifact) exactly when there are fewer than 50 items,
and otherwise publishes the newly built artifact, replacing the current
one — regardless of how many interaction cells are nonzero. -/
def TrainTaskBehaviour (damp : ℤ → ℤ) (embed : String → List ℤ) (svd : SvdFn)
    (txns : List Txn) (products : List Product) (current : Option Artifact) :
    Prop :=
  (txns = [] →
    train_model_task damp embed svd txns products current =
      (TrainOutcome.skipped, current)) ∧
  (txns ≠ [] → products.length < 50 →
    train_model_task damp embed svd txns products current =
      (TrainOutcome.failed svdErrorMsg, current)) ∧
  (txns ≠ [] → 50 ≤ products.length →
    train_model_task damp embed svd txns products current =
      (TrainOutcome.published (artifactOf damp embed svd txns products),
       some (artifactOf damp embed svd txns products)))

/-- What `_train_sync` does with the decomposition rank: it always requests
50 components; with fewer than 50 items the decomposition raises, and with
at least 50 items it succeeds with the factors the oracle returns for rank
exactly 50 (never a reduced rank). -/
def TrainRankBehaviour (damp : ℤ → ℤ) (embed : String → List ℤ) (svd : SvdFn)
    (txns : List Txn) (products : List Product) : Prop :=
  (products.length < 50 →
    trainSync damp embed svd txns products = Except.error svdErrorMsg) ∧
  (50 ≤ products.length →
    trainSync damp embed svd txns products =
      Except.ok (artifactOf damp embed svd txns products) ∧
    (artifactOf damp embed svd txns products).user_factors =
      (svd 50
        (interactionCell damp txns
          (indexMapOf (uniqueFirst (txns.map (fun t => t.user_id))))
          (indexMapOf (products.map (fun p => p._id))))
        (uniqueFirst (txns.map (fun t => t.user_id))).length
        (products.map (fun p => p._id)).length).1 ∧
    (artifactOf damp embed svd txns products).components =
      (svd 50
        (interactionCell damp txns
          (indexMapOf (uniqueFirst (txns.map (fun t => t.user_id))))
          (indexMapOf (products.map (fun p => p._id))))
        (uniqueFirst (txns.map (fun t => t.user_id))).length
        (products.map (fun p => p._id)).length).2)

/-- Bijectivity contract of one id registry: `fm` maps external ids to
internal indices and `im` maps indices back.  Every id of the snapshot list
`ids` has an index that maps back to it, every index binding maps back to
its index, no two ids share an index, and exactly the indices `0..n-1` are
assigned. -/
def RegistryBijective {α : Type} [DecidableEq α] (fm : List (α × Nat))
    (im : List (Nat × α)) (n : Nat) (ids : List α) : Prop :=
  (∀ a ∈ ids, ∃ i, dictGet fm a = some i ∧ dictGet im i = some a) ∧
  (∀ i a, dictGet im i = some a → dictGet fm a = some i) ∧
  (∀ a b i, dictGet fm a = some i → dictGet fm b = some i → a = b) ∧
  (∀ i, (dictGet im i).isSome ↔ i < n)

/-- Artifact with one user whose two items score equally, exposing the order
`recommend` lists tied items in. -/
def tieArtifact : Artifact :=
  { user_map := [("u", 0)]
    reverse_user_map := [(0, "u")]
    product_map := [(0, "A"), (1, "B")]
    reverse_product_map := [("A", 0), ("B", 1)]
    user_factors := [[1]]
    components := [[1, 1]]
    item_vectors := [[0], [0]]
    product_data := [("A", "item a"), ("B", "item b")] }

/-- Concrete stand-in for the dampening transform in closed evaluations. -/
def damp0 : ℤ → ℤ := fun q => q

/-- Concrete stand-in for the text encoder in closed evaluations. -/
def embed0 : String → List ℤ := fun _ => [0]

/-- Concrete stand-in for the SVD oracle in closed evaluations: zero factor
matrices of the requested shapes. -/
def svd0 : SvdFn := fun r _cells nUsers nItems =>
  (List.replicate nUsers (List.replicate r 0),
   List.replicate r (List.replicate nItems 0))

/-- A snapshot of 50 products with pairwise distinct ids: product `n` has the
string of `n` repetitions of the letter `a` as id (only distinctness
matters).  Fifty items is the smallest count the rank check accepts. -/
def products50 : List Product :=
  (List.range 50).map
    (fun n => { _id := String.mk (List.replicate n 'a'), description := "d" })

/-- A snapshot of a single product. -/
def products1 : List Product :=
  [{ _id := "P", description := "d" }]

/-- A transaction whose quantity is zero: a row the specification calls
invalid, referencing the first product of `products50` (whose id is the
empty string). -/
def txnZero : Txn :=
  { user_id := "u", stock_code := "", quantity := 0 }

/-- A transaction with positive quantity on product `"P"`. -/
def txnPos : Txn :=
  { user_id := "u", stock_code := "P", quantity := 2 }

example : uniqueFirst ["a", "b", "a", "c", "b"] = ["a", "b", "c"] := by decide

example : dictGet (indexMapOf ["x", "y"]) "y" = some 1 := by decide

example : dictGet (idMapOf ["x", "y"]) 0 = some "x" := by decide

example :
    interactionCell (fun q => q + 1) [⟨"u", "A", 2⟩, ⟨"u", "A", -3⟩, ⟨"u", "B", 1⟩]
      [("u", 0)] [("A", 0), ("B", 1)] 0 0 = 3 := by decide

example :
    specInteractionCell (fun q => q + 1) [⟨"u", "A", 2⟩, ⟨"u", "A", -3⟩, ⟨"u", "B", 1⟩]
      [("u", 0)] [("A", 0), ("B", 1)] 0 0 = 3 := by decide

/-- Small two-user, three-item artifact used in scratch checks, mirroring the
score-ordering example of the specification (section 8): user factors
`u1 = [1,0]`, `u2 = [0,1]`, item factor columns `A = [2,0]`, `B = [0,3]`,
`C = [1,1]`. -/
def toyArtifact : Artifact :=
  { user_map := [("u1", 0), ("u2", 1)]
    reverse_user_map := [(0, "u1"), (1, "u2")]
    product_map := [(0, "A"), (1, "B"), (2, "C")]
    reverse_product_map := [("A", 0), ("B", 1), ("C", 2)]
    user_factors := [[1, 0], [0, 1]]
    components := [[2, 0, 1], [0, 3, 1]]
    item_vectors := [[0, 0], [1, 0], [5, 5]]
    product_data := [("A", "item a"), ("B", "item b"), ("C", "item c")] }

example : scoresOf toyArtifact 0 = [2, 0, 1] := by decide

example :
    (recommend (some toyArtifact) "u1" 2).map (fun r => (r.stock_code, r.score)) =
      [("A", 2), ("C", 1)] := by decide

example :
    (recommend (some toyArtifact) "u2" 1).map (fun r => (r.stock_code, r.score)) =
      [("B", 3)] := by decide

example : recommend (some toyArtifact) "unknown-user" 5 = [] := by decide

example : recommend none "u1" 5 = [] := by decide

example :
    (searchWithVec toyArtifact [0, 0] 2).map (fun r => (r.stock_code, r.score)) =
      [("A", 0), ("B", 1)] := by decide

example : (searchWithVec toyArtifact [0, 0] 7).length = 3 := by decide

theorem dictGet_cons {α β : Type} [DecidableEq α] (p : α × β)
    (d : List (α × β)) (k : α) :
    dictGet (p :: d) k = if p.1 = k then some p.2 else dictGet d k := by
  unfold dictGet
  rw [List.find?_cons]
  by_cases h : p.1 = k
  · simp [h]
  · simp [h]

theorem dictGet_enumFrom {α : Type} (l : List α) :
    ∀ (n i : Nat), n ≤ i → dictGet (List.enumFrom n l) i = l.get? (i - n) := by
  induction l with
  | nil => intro n i _; rfl
  | cons x xs ih =>
      intro n i h
      rw [List.enumFrom_cons, dictGet_cons]
      by_cases hni : n = i
      · subst hni
        simp [Nat.sub_self]
      · have h1 : n + 1 ≤ i := by omega
        rw [if_neg hni, ih (n + 1) i h1]
        have h2 : i - n = (i - (n + 1)) + 1 := by omega
        rw [h2, List.get?_cons_succ]

theorem dictGet_idMapOf {α : Type} (l : List α) (i : Nat) :
    dictGet (idMapOf l) i = l.get? i := by
  have h := dictGet_enumFrom l 0 i (Nat.zero_le i)
  simpa [idMapOf, List.enum] using h

theorem dictGet_indexMap_enumFrom {α : Type} [DecidableEq α] (l : List α) :
    ∀ (n : Nat) (a : α),
      dictGet ((List.enumFrom n l).map (fun p => (p.2, p.1))) a =
        if a ∈ l then some (n + List.indexOf a l) else none := by
  induction l with
  | nil => intro n a; simp [dictGet]
  | cons x xs ih =>
      intro n a
      rw [List.enumFrom_cons]
      simp only [List.map_cons]
      rw [dictGet_cons]
      by_cases hxa : x = a
      · subst hxa
        simp [List.indexOf_cons_self]
      · rw [if_neg hxa, ih (n + 1) a]
        by_cases hm : a ∈ xs
        · rw [if_pos hm, if_pos (List.mem_cons_of_mem x hm)]
          rw [List.indexOf_cons_ne _ hxa]
          congr 1
          omega
        · rw [if_neg hm]
          have hnx : a ∉ x :: xs := by
            simp only [List.mem_cons]
            rintro (rfl | hc)
            · exact hxa rfl
            · exact hm hc
          rw [if_neg hnx]

theorem dictGet_indexMapOf {α : Type} [DecidableEq α] (l : List α) (a : α) :
    dictGet (indexMapOf l) a =
      if a ∈ l then some (List.indexOf a l) else none := by
  have h := dictGet_indexMap_enumFrom l 0 a
  simpa [indexMapOf, List.enum] using h

theorem mem_uniqueFirstAux {α : Type} [DecidableEq α] (a : α) :
    ∀ (l seen : List α), a ∈ uniqueFirstAux l seen ↔ a ∈ l ∧ a ∉ seen := by
  intro l
  induction l with
  | nil => intro seen; simp [uniqueFirstAux]
  | cons x xs ih =>
      intro seen
      unfold uniqueFirstAux
      by_cases hx : x ∈ seen
      · rw [if_pos hx, ih seen]
        by_cases hax : a = x
        · subst hax; simp [hx]
        · simp [hax]
      · rw [if_neg hx]
        simp only [List.mem_cons]
        rw [ih (x :: seen)]
        by_cases hax : a = x
        · subst hax; simp [hx]
        · simp [hax]

theorem nodup_uniqueFirstAux {α : Type} [DecidableEq α] :
    ∀ (l seen : List α), (uniqueFirstAux l seen).Nodup := by
  intro l
  induction l with
  | nil => intro seen; exact List.nodup_nil
  | cons x xs ih =>
      intro seen
      unfold uniqueFirstAux
      by_cases hx : x ∈ seen
      · rw [if_pos hx]; exact ih seen
      · rw [if_neg hx]
        refine List.nodup_cons.mpr ⟨?_, ih (x :: seen)⟩
        intro hmem
        rcases (mem_uniqueFirstAux x xs (x :: seen)).mp hmem with ⟨-, hnot⟩
        exact hnot (List.mem_cons_self x seen)

theorem mem_uniqueFirst {α : Type} [DecidableEq α] (a : α) (l : List α) :
    a ∈ uniqueFirst l ↔ a ∈ l := by
  unfold uniqueFirst
  rw [mem_uniqueFirstAux]
  simp

theorem nodup_uniqueFirst {α : Type} [DecidableEq α] (l : List α) :
    (uniqueFirst l).Nodup :=
  nodup_uniqueFirstAux l []

theorem registryBijective_of_nodup {α : Type} [DecidableEq α] {U : List α}
    (h : U.Nodup) :
    RegistryBijective (indexMapOf U) (idMapOf U) U.length U := by
  refine ⟨?_, ?_, ?_, ?_⟩
  · intro a ha
    refine ⟨List.indexOf a U, ?_, ?_⟩
    · rw [dictGet_indexMapOf, if_pos ha]
    · rw [dictGet_idMapOf]
      exact List.indexOf_get? ha
  · intro i a hia
    rw [dictGet_idMapOf] at hia
    have hi : i < U.length := by
      by_contra hge
      rw [List.get?_eq_none.mpr (by omega)] at hia
      exact Option.noConfusion hia
    have hget : U.get ⟨i, hi⟩ = a := by
      rw [List.get?_eq_get hi] at hia
      exact Option.some.inj hia
    have hmem : a ∈ U := hget ▸ List.get_mem U i hi
    rw [dictGet_indexMapOf, if_pos hmem]
    have := List.get_indexOf h ⟨i, hi⟩
    rw [hget] at this
    rw [this]
  · intro a b i ha hb
    rw [dictGet_indexMapOf] at ha hb
    by_cases hma : a ∈ U
    · by_cases hmb : b ∈ U
      · rw [if_pos hma] at ha
        rw [if_pos hmb] at hb
        have hia : List.indexOf a U = i := Option.some.inj ha
        have hib : List.indexOf b U = i := Option.some.inj hb
        have h1 := List.indexOf_get? hma
        have h2 := List.indexOf_get? hmb
        rw [hia] at h1
        rw [hib] at h2
        rw [h1] at h2
        exact Option.some.inj h2
      · rw [if_neg hmb] at hb; exact absurd hb (by simp)
    · rw [if_neg hma] at ha; exact absurd ha (by simp)
  · intro i
    rw [dictGet_idMapOf]
    constructor
    · intro hs
      by_contra hge
      rw [List.get?_eq_none.mpr (by omega)] at hs
      simp at hs
    · intro hi
      rw [List.get?_eq_get hi]
      rfl

/-- Claim C6: for every training snapshot whose product ids are pairwise
distinct (the database primary-key constraint), the user and item identifier
mappings built by the training run are bijections: every external id of the
snapshot gets an index that maps back to it, every index binding
round-trips, no two distinct external ids share an index, and the assigned
indices are exactly the contiguous range `0..N-1`. -/
theorem claim_C6 (damp : ℤ → ℤ) (embed : String → List ℤ) (svd : SvdFn)
    (txns : List Txn) (products : List Product)
    (hids : (products.map (fun p => p._id)).Nodup) :
    RegistryBijective (artifactOf damp embed svd txns products).user_map
      (artifactOf damp embed svd txns products).reverse_user_map
      (uniqueFirst (txns.map (fun t => t.user_id))).length
      (txns.map (fun t => t.user_id)) ∧
    RegistryBijective
      (artifactOf damp embed svd txns products).reverse_product_map
      (artifactOf damp embed svd txns products).product_map
      products.length
      (products.map (fun p => p._id)) := by
  constructor
  · have h := registryBijective_of_nodup
      (nodup_uniqueFirst (txns.map (fun t => t.user_id)))
    refine ⟨?_, h.2.1, h.2.2.1, h.2.2.2⟩
    intro a ha
    exact h.1 a ((mem_uniqueFirst a _).mpr ha)
  · have h := registryBijective_of_nodup hids
    have hlen : (products.map (fun p => p._id)).length = products.length :=
      List.length_map _ _
    rw [hlen] at h
    exact h

/-- Witness for claim C6 at a concrete snapshot. -/
theorem claim_C6_witness :
    (products1.map (fun p => p._id)).Nodup ∧
    (RegistryBijective (artifactOf damp0 embed0 svd0 [txnPos] products1).user_map
      (artifactOf damp0 embed0 svd0 [txnPos] products1).reverse_user_map
      (uniqueFirst ([txnPos].map (fun t => t.user_id))).length
      ([txnPos].map (fun t => t.user_id)) ∧
    RegistryBijective
      (artifactOf damp0 embed0 svd0 [txnPos] products1).reverse_product_map
      (artifactOf damp0 embed0 svd0 [txnPos] products1).product_map
      products1.length
      (products1.map (fun p => p._id))) :=
  ⟨by decide, claim_C6 damp0 embed0 svd0 [txnPos] products1 (by decide)⟩

theorem interactionCell_cons (damp : ℤ → ℤ) (t : Txn) (ts : List Txn)
    (um rpm : List (String × Nat)) (u i : Nat) :
    interactionCell damp (t :: ts) um rpm u i =
      (if (dictGet rpm t.stock_code).isSome = true ∧
          0 ≤ txnUserIdx um t ∧ 0 ≤ txnItemIdx rpm t ∧
          txnUserIdx um t = (u : Int) ∧ txnItemIdx rpm t = (i : Int)
        then txnWeight damp t else 0) +
      interactionCell damp ts um rpm u i := by
  unfold interactionCell
  simp only [List.filter_cons]
  by_cases h1 : (dictGet rpm t.stock_code).isSome = true
  · by_cases h2 : 0 ≤ txnUserIdx um t
    · by_cases h3 : 0 ≤ txnItemIdx rpm t
      · by_cases h4 : txnUserIdx um t = (u : Int)
        · by_cases h5 : txnItemIdx rpm t = (i : Int)
          · simp [h1, h2, h3, h4, h5]
          · simp [h1, h2, h3, h4, h5]
        · by_cases h5 : txnItemIdx rpm t = (i : Int) <;>
            simp [h1, h2, h3, h4, h5]
      · simp [h1, h2, h3]
    · simp [h1, h2]
  · simp [h1]

theorem specInteractionCell_cons (damp : ℤ → ℤ) (t : Txn) (ts : List Txn)
    (um rpm : List (String × Nat)) (u i : Nat) :
    specInteractionCell damp (t :: ts) um rpm u i =
      (if 0 < t.quantity ∧ dictGet um t.user_id = some u ∧
          dictGet rpm t.stock_code = some i
        then damp t.quantity else 0) +
      specInteractionCell damp ts um rpm u i := by
  unfold specInteractionCell
  simp only [List.filter_cons]
  by_cases h1 : 0 < t.quantity
  · by_cases h2 : dictGet um t.user_id = some u
    · by_cases h3 : dictGet rpm t.stock_code = some i
      · simp [h1, h2, h3]
      · simp [h1, h2, h3]
    · by_cases h3 : dictGet rpm t.stock_code = some i <;> simp [h1, h2, h3]
  · by_cases h2 : dictGet um t.user_id = some u <;>
      by_cases h3 : dictGet rpm t.stock_code = some i <;> simp [h1, h2, h3]

theorem cell_head_eq (damp : ℤ → ℤ) (t : Txn)
    (um rpm : List (String × Nat)) (u i : Nat) :
    (if (dictGet rpm t.stock_code).isSome = true ∧
        0 ≤ txnUserIdx um t ∧ 0 ≤ txnItemIdx rpm t ∧
        txnUserIdx um t = (u : Int) ∧ txnItemIdx rpm t = (i : Int)
      then txnWeight damp t else 0) =
    (if 0 < t.quantity ∧ dictGet um t.user_id = some u ∧
        dictGet rpm t.stock_code = some i
      then damp t.quantity else 0) := by
  have hneg : ¬ ((0 : Int) ≤ -1) := by decide
  rcases hum : dictGet um t.user_id with _ | uu <;>
    rcases hrm : dictGet rpm t.stock_code with _ | ii
  · simp [txnUserIdx, txnItemIdx, hum, hrm]
  · simp [txnUserIdx, txnItemIdx, hum, hrm, hneg]
  · simp [txnUserIdx, txnItemIdx, hum, hrm]
  · by_cases hq : 0 < t.quantity <;>
      by_cases huu : uu = u <;>
      by_cases hii : ii = i <;>
      simp [txnUserIdx, txnItemIdx, txnWeight, hum, hrm, hq, huu, hii]

theorem interactionCell_eq_spec (damp : ℤ → ℤ) (txns : List Txn)
    (um rpm : List (String × Nat)) (u i : Nat) :
    interactionCell damp txns um rpm u i =
      specInteractionCell damp txns um rpm u i := by
  induction txns with
  | nil => rfl
  | cons t ts ih =>
      rw [interactionCell_cons, specInteractionCell_cons, cell_head_eq, ih]

theorem specInteractionCell_nonzero (damp : ℤ → ℤ) (txns : List Txn)
    (um rpm : List (String × Nat)) (u i : Nat)
    (h : specInteractionCell damp txns um rpm u i ≠ 0) :
    ∃ t ∈ txns, 0 < t.quantity ∧ dictGet um t.user_id = some u ∧
      dictGet rpm t.stock_code = some i := by
  induction txns with
  | nil => exact absurd rfl h
  | cons t ts ih =>
      rw [specInteractionCell_cons] at h
      by_cases hc : 0 < t.quantity ∧ dictGet um t.user_id = some u ∧
          dictGet rpm t.stock_code = some i
      · exact ⟨t, List.mem_cons_self t ts, hc⟩
      · rw [if_neg hc, zero_add] at h
        rcases ih h with ⟨s, hs, hp⟩
        exact ⟨s, List.mem_cons_of_mem t hs, hp⟩

/-- Claim C4: the interaction-matrix construction is cell-for-cell the
policy the specification states: interactions with nonpositive quantity and
interactions whose user or item id is not registered contribute nothing, and
duplicates of the same user-item pair are aggregated by summing the dampened
quantity; consequently a nonzero cell requires at least one registered
positive-quantity interaction on that pair. -/
theorem claim_C4 (damp : ℤ → ℤ) (txns : List Txn)
    (um rpm : List (String × Nat)) (u i : Nat) :
    interactionCell damp txns um rpm u i =
      specInteractionCell damp txns um rpm u i ∧
    (interactionCell damp txns um rpm u i ≠ 0 →
      ∃ t ∈ txns, 0 < t.quantity ∧ dictGet um t.user_id = some u ∧
        dictGet rpm t.stock_code = some i) := by
  refine ⟨interactionCell_eq_spec damp txns um rpm u i, ?_⟩
  intro h
  apply specInteractionCell_nonzero damp txns um rpm u i
  rw [← interactionCell_eq_spec damp txns um rpm u i]
  exact h

/-- Witness for claim C4 at a concrete snapshot with one valid interaction. -/
theorem claim_C4_witness :
    interactionCell damp0 [txnPos] [("u", 0)] [("P", 0)] 0 0 ≠ 0 ∧
    (∃ t ∈ [txnPos], 0 < t.quantity ∧ dictGet [("u", 0)] t.user_id = some 0 ∧
      dictGet [("P", 0)] t.stock_code = some 0) :=
  ⟨by decide, (claim_C4 damp0 [txnPos] [("u", 0)] [("P", 0)] 0 0).2 (by decide)⟩

/-- Claim C3: with no published artifact (the engine never trained and the
lazy reload found nothing), or with a user id that has no internal index in
the current artifact, recommend returns the empty list; both paths are plain
returns, not exceptions. -/
theorem claim_C3 (uid : String) (k : Nat) :
    recommend none uid k = [] ∧
    ∀ A : Artifact, dictGet A.user_map uid = none →
      recommend (some A) uid k = [] := by
  refine ⟨rfl, ?_⟩
  intro A h
  simp [recommend, h]

/-- Witness for claim C3: a user absent from the toy artifact. -/
theorem claim_C3_witness :
    dictGet toyArtifact.user_map "ghost" = none ∧
    recommend (some toyArtifact) "ghost" 3 = [] :=
  ⟨by decide, (claim_C3 "ghost" 3).2 toyArtifact (by decide)⟩

/-- Claim C5 (amended): the pipeline aborts without touching the published
artifact only when the snapshot has no transaction rows at all, or when the
rank check fails for lack of items; a snapshot whose interaction matrix has
zero nonzero cells but at least one transaction row and at least 50 items is
trained and published like any other. -/
theorem claim_C5 (damp : ℤ → ℤ) (embed : String → List ℤ) (svd : SvdFn)
    (txns : List Txn) (products : List Product) (current : Option Artifact) :
    TrainTaskBehaviour damp embed svd txns products current := by
  refine ⟨?_, ?_, ?_⟩
  · intro h
    simp [train_model_task, h]
  · intro hne hlt
    simp [train_model_task, hne, trainSync, hlt]
  · intro hne hge
    have hnl : ¬ products.length < 50 := by omega
    simp [train_model_task, hne, trainSync, hnl]

/-- Witness for claim C5: the publishing branch at a concrete snapshot. -/
theorem claim_C5_witness :
    (([txnZero] : List Txn) ≠ [] ∧ 50 ≤ products50.length) ∧
    train_model_task damp0 embed0 svd0 [txnZero] products50 (some toyArtifact) =
      (TrainOutcome.published (artifactOf damp0 embed0 svd0 [txnZero] products50),
       some (artifactOf damp0 embed0 svd0 [txnZero] products50)) :=
  ⟨⟨by decide, by decide⟩,
    (claim_C5 damp0 embed0 svd0 [txnZero] products50 (some toyArtifact)).2.2
      (by decide) (by decide)⟩

/-- Counterexample for claim C5: a snapshot with one quantity-zero
transaction and fifty items.  Its interaction matrix (1 user by 50 items) has
no nonzero cell, yet the task publishes a new model instead of aborting with
an insufficient-data signal, and the previously published artifact is
replaced. -/
theorem claim_C5_counterexample :
    ((List.range 1).all (fun u => (List.range 50).all (fun i =>
      interactionCell damp0 [txnZero]
        (artifactOf damp0 embed0 svd0 [txnZero] products50).user_map
        (artifactOf damp0 embed0 svd0 [txnZero] products50).reverse_product_map
        u i == 0)) = true) ∧
    (train_model_task damp0 embed0 svd0 [txnZero] products50
      (some toyArtifact)).1.isPublished = true ∧
    (train_model_task damp0 embed0 svd0 [txnZero] products50
      (some toyArtifact)).2 ≠ some toyArtifact := by
  decide

/-- Claim C7 (amended): `_train_sync` always requests 50 components; when
the snapshot has fewer than 50 items the decomposition raises and the build
fails, and otherwise the factors are those the decomposition returns for
rank exactly 50 — the rank is never reduced to `min(numUsers, numItems, 50)`. -/
theorem claim_C7 (damp : ℤ → ℤ) (embed : String → List ℤ) (svd : SvdFn)
    (txns : List Txn) (products : List Product) :
    TrainRankBehaviour damp embed svd txns products := by
  refine ⟨?_, ?_⟩
  · intro hlt
    simp [trainSync, hlt]
  · intro hge
    have hnl : ¬ products.length < 50 := by omega
    exact ⟨by simp [trainSync, hnl], rfl, rfl⟩

/-- Witness for claim C7: the success branch at fifty items. -/
theorem claim_C7_witness :
    50 ≤ products50.length ∧
    trainSync damp0 embed0 svd0 [txnZero] products50 =
      Except.ok (artifactOf damp0 embed0 svd0 [txnZero] products50) :=
  ⟨by decide, ((claim_C7 damp0 embed0 svd0 [txnZero] products50).2 (by decide)).1⟩

/-- Counterexample for claim C7: a snapshot with one user and one item, both
below the configured rank 50.  The claimed behaviour is a successful build
at effective rank `min(1, 1, 50) = 1`; the code instead raises the
scikit-learn rank error and the build fails. -/
theorem claim_C7_counterexample :
    products1.length < 50 ∧
    (uniqueFirst ([txnPos].map (fun t => t.user_id))).length < 50 ∧
    trainSync damp0 embed0 svd0 [txnPos] products1 =
      Except.error svdErrorMsg :=
  ⟨by decide, by decide, rfl⟩

/-- Claim C8 (amended): publication is not atomic.  The training thread
assigns the engine fields in place, one after another, so a serving call
whose reads all happen before the first assignment or all after the last one
observes a single build, but the interleaving in which the call runs between
the id-map assignments and the factor assignments observes the new maps with
the old factors. -/
theorem claim_C8 :
    torn (runSched readsFirstSched []) = false ∧
    torn (runSched readsLastSched []) = false ∧
    isInterleaving tornSched trainWrites recommendReads = true ∧
    torn (runSched tornSched []) = true := by
  decide

/-- Counterexample for claim C8: a valid interleaving of the write sequence
of `_train_sync` with the read sequence of `recommend` in which the call
observes `user_map` from the new build and `user_factors` from the old
build — a torn read. -/
theorem claim_C8_counterexample :
    isInterleaving tornSched trainWrites recommendReads = true ∧
    dictGet (runSched tornSched []) MField.user_map = some 1 ∧
    dictGet (runSched tornSched []) MField.user_factors = some 0 := by
  decide

/-- Claim C9 (amended): the training route keeps no build state: every
request is answered with the fixed accepted message and schedules one more
concurrently running build, whatever is already running. -/
theorem claim_C9 (s : ApiState) :
    trigger_training s =
      (TriggerResponse.accepted, { building := s.building + 1 }) := rfl

/-- Counterexample for claim C9: a request arriving while one build is in
progress is accepted (never rejected as busy) and a second build enters
progress, so two builds are building at the same time. -/
theorem claim_C9_counterexample :
    (trigger_training { building := 1 }).1 = TriggerResponse.accepted ∧
    (trigger_training { building := 1 }).2.building = 2 := by
  decide

theorem argsortAsc_sorted (scores : List ℤ) :
    List.Pairwise (idxLe scores) (argsortAsc scores) :=
  List.sorted_insertionSort (idxLe scores) (List.range scores.length)

theorem argsortAsc_perm (scores : List ℤ) :
    (argsortAsc scores).Perm (List.range scores.length) :=
  List.perm_insertionSort (idxLe scores) (List.range scores.length)

theorem argsortAsc_nodup (scores : List ℤ) : (argsortAsc scores).Nodup :=
  (argsortAsc_perm scores).symm.nodup (List.nodup_range scores.length)

theorem mem_argsortAsc (scores : List ℤ) (i : Nat) :
    i ∈ argsortAsc scores ↔ i < scores.length := by
  rw [(argsortAsc_perm scores).mem_iff, List.mem_range]

theorem topIndices_subset (scores : List ℤ) (k : Nat) :
    ∀ i ∈ topIndices scores k, i < scores.length := by
  intro i hi
  unfold topIndices at hi
  have h1 : i ∈ (argsortAsc scores).reverse :=
    (List.take_sublist _ _).mem hi
  rw [List.mem_reverse] at h1
  exact (mem_argsortAsc scores i).mp h1

theorem topIndices_length (scores : List ℤ) (k : Nat) :
    (topIndices scores k).length ≤ k := by
  unfold topIndices
  rw [List.length_take]
  exact Nat.min_le_left _ _

theorem topIndices_sorted (scores : List ℤ) (k : Nat) :
    List.Pairwise (fun i j => scores.getD j 0 < scores.getD i 0 ∨
      (scores.getD j 0 = scores.getD i 0 ∧ j < i)) (topIndices scores k) := by
  have hrev : List.Pairwise (fun i j => idxLe scores j i)
      (argsortAsc scores).reverse :=
    List.pairwise_reverse.mpr (argsortAsc_sorted scores)
  have hnd : (argsortAsc scores).reverse.Nodup :=
    List.nodup_reverse.mpr (argsortAsc_nodup scores)
  have hcomb := List.Pairwise.and hrev hnd
  have hstrict : List.Pairwise (fun i j => scores.getD j 0 < scores.getD i 0 ∨
      (scores.getD j 0 = scores.getD i 0 ∧ j < i))
      (argsortAsc scores).reverse := by
    refine List.Pairwise.imp ?_ hcomb
    rintro i j ⟨hle, hne⟩
    simp only [idxLe] at hle
    rcases hle with h | ⟨he, hji⟩
    · exact Or.inl h
    · exact Or.inr ⟨he, lt_of_le_of_ne hji (fun hj => hne hj.symm)⟩
  exact List.Pairwise.sublist (List.take_sublist _ _) hstrict

theorem scoresOf_length (A : Artifact) (uidx : Nat) :
    (scoresOf A uidx).length = numItems A := by
  simp [scoresOf]

theorem scoresOf_getD (A : Artifact) (uidx i : Nat) (h : i < numItems A) :
    (scoresOf A uidx).getD i 0 =
      dot (A.user_factors.getD uidx []) (col A.components i) := by
  unfold scoresOf
  rw [List.getD_eq_get?, List.get?_map, List.get?_range h]
  rfl

theorem recommendG_inv (A : Artifact) (uidx idx : Nat)
    (b : Nat × String × ℤ)
    (h : (match dictGet A.product_map idx with
           | none => none
           | some code =>
               if code = "" then none
               else some (idx, code, (scoresOf A uidx).getD idx 0)) = some b) :
    b.1 = idx ∧ b.2.2 = (scoresOf A uidx).getD idx 0 := by
  rcases hcode : dictGet A.product_map idx with _ | code
  · simp [hcode] at h
  · simp only [hcode] at h
    by_cases hce : code = ""
    · simp [hce] at h
    · rw [if_neg hce] at h
      obtain rfl := Option.some.inj h
      exact ⟨rfl, rfl⟩

theorem recommendDetailed_mem (A : Artifact) (uidx k : Nat) :
    ∀ p ∈ recommendDetailed A uidx k,
      p.1 ∈ topIndices (scoresOf A uidx) k ∧
      dictGet A.product_map p.1 = some p.2.1 ∧
      p.2.2 = (scoresOf A uidx).getD p.1 0 := by
  intro p hp
  unfold recommendDetailed at hp
  rcases List.mem_filterMap.mp hp with ⟨idx, hidx, hg⟩
  rcases hcode : dictGet A.product_map idx with _ | code
  · simp [hcode] at hg
  · simp only [hcode] at hg
    by_cases hce : code = ""
    · simp [hce] at hg
    · rw [if_neg hce] at hg
      obtain rfl := Option.some.inj hg
      exact ⟨hidx, hcode, rfl⟩

theorem recommendDetailed_sorted (A : Artifact) (uidx k : Nat) :
    List.Pairwise (fun p q => q.2.2 < p.2.2 ∨ (q.2.2 = p.2.2 ∧ q.1 < p.1))
      (recommendDetailed A uidx k) := by
  unfold recommendDetailed
  rw [List.pairwise_filterMap]
  refine List.Pairwise.imp ?_ (topIndices_sorted (scoresOf A uidx) k)
  intro i j hij b hb b' hb'
  rw [Option.mem_def] at hb hb'
  obtain ⟨hb1, hb2⟩ := recommendG_inv A uidx i b hb
  obtain ⟨hb1', hb2'⟩ := recommendG_inv A uidx j b' hb'
  rw [hb1, hb1', hb2, hb2']
  exact hij

theorem recommendKnown_eq_map (A : Artifact) (uidx k : Nat) :
    recommendKnown A uidx k =
      (recommendDetailed A uidx k).map
        (fun p => { stock_code := p.2.1, score := p.2.2,
                    name := dictGet A.product_data p.2.1 }) := by
  unfold recommendKnown recommendDetailed
  rw [List.map_filterMap]
  congr 1
  funext idx
  rcases hcode : dictGet A.product_map idx with _ | code
  · simp [hcode]
  · simp only [hcode]
    by_cases hce : code = ""
    · simp [hce]
    · simp [hce]

/-- Claim C1 (amended): for a user with an internal index, recommend returns
at most `k` items sorted by strictly descending score, every score being the
dot product of the user factor row with the component column of the item,
and every stock code the one registered for that internal index; on equal
scores the item with the larger internal index is listed first (the reversal
of an ascending argsort), not the smaller one. -/
theorem claim_C1 (A : Artifact) (uid : String) (k uidx : Nat)
    (h : dictGet A.user_map uid = some uidx) :
    RecommendOk A uid k uidx := by
  refine ⟨?_, ?_, ?_, ?_⟩
  · simp only [recommend, h]
    exact recommendKnown_eq_map A uidx k
  · unfold recommendDetailed
    exact le_trans (List.length_filterMap_le _ _)
      (topIndices_length (scoresOf A uidx) k)
  · exact recommendDetailed_sorted A uidx k
  · intro p hp
    obtain ⟨htop, hcode, hscore⟩ := recommendDetailed_mem A uidx k p hp
    have hlt : p.1 < numItems A := by
      have hlen := topIndices_subset (scoresOf A uidx) k p.1 htop
      rwa [scoresOf_length] at hlen
    exact ⟨hlt, hcode, by rw [hscore, scoresOf_getD A uidx p.1 hlt]⟩

/-- Witness for claim C1 at the toy artifact. -/
theorem claim_C1_witness :
    dictGet toyArtifact.user_map "u1" = some 0 ∧
    RecommendOk toyArtifact "u1" 2 0 :=
  ⟨by decide, claim_C1 toyArtifact "u1" 2 0 (by decide)⟩

/-- Counterexample for claim C1: in an artifact where items `A` (internal
index 0) and `B` (internal index 1) score equally for the user, recommend
lists `B` before `A` — the item with the larger internal index comes first,
contradicting the claimed lower-index tie-break. -/
theorem claim_C1_counterexample :
    (recommend (some tieArtifact) "u" 2).map (fun r => (r.stock_code, r.score)) =
      [("B", 1), ("A", 1)] ∧
    dictGet tieArtifact.product_map 0 = some "A" ∧
    dictGet tieArtifact.product_map 1 = some "B" := by
  decide

theorem sortedHits_sorted (vecs : List (List ℤ)) (q : List ℤ) :
    List.Pairwise hitLe (sortedHits vecs q) :=
  List.sorted_insertionSort hitLe (scoredHits vecs q)

theorem sortedHits_perm (vecs : List (List ℤ)) (q : List ℤ) :
    (sortedHits vecs q).Perm (scoredHits vecs q) :=
  List.perm_insertionSort hitLe (scoredHits vecs q)

theorem scoredHits_length (vecs : List (List ℤ)) (q : List ℤ) :
    (scoredHits vecs q).length = vecs.length := by
  simp [scoredHits]

theorem mem_scoredHits (vecs : List (List ℤ)) (q : List ℤ) (p : Int × ℤ) :
    p ∈ scoredHits vecs q ↔
      ∃ i, i < vecs.length ∧ ((i : Int), sqDist (vecs.getD i []) q) = p := by
  simp [scoredHits]

theorem sortedHits_fst_nodup (vecs : List (List ℤ)) (q : List ℤ) :
    ((sortedHits vecs q).map Prod.fst).Nodup := by
  have h1 : ((scoredHits vecs q).map Prod.fst).Nodup := by
    unfold scoredHits
    rw [List.map_map]
    have he : (Prod.fst ∘ fun (i : Nat) =>
        ((i : Int), sqDist (vecs.getD i []) q)) =
        (fun (i : Nat) => (i : Int)) := rfl
    rw [he]
    exact (List.nodup_range _).map Nat.cast_injective
  exact ((sortedHits_perm vecs q).map Prod.fst).symm.nodup h1

theorem sortedHits_strict (vecs : List (List ℤ)) (q : List ℤ) :
    List.Pairwise hitLt (sortedHits vecs q) := by
  have hne : List.Pairwise (fun a b : Int × ℤ => a.1 ≠ b.1)
      (sortedHits vecs q) :=
    List.pairwise_map.mp (sortedHits_fst_nodup vecs q)
  refine List.Pairwise.imp ?_
    (List.Pairwise.and (sortedHits_sorted vecs q) hne)
  rintro a b ⟨hle, hab⟩
  simp only [hitLe] at hle
  rcases hle with h | ⟨he, hle1⟩
  · exact Or.inl h
  · exact Or.inr ⟨he, lt_of_le_of_ne hle1 hab⟩

theorem dictGetI_neg {β : Type} (d : List (Nat × β)) (i : Int) (h : i < 0) :
    dictGetI d i = none := by
  unfold dictGetI
  rw [if_pos h]

theorem dictGetI_coe {β : Type} (d : List (Nat × β)) (i : Nat) :
    dictGetI d (i : Int) = dictGet d i := by
  unfold dictGetI
  rw [if_neg (not_lt.mpr (Int.natCast_nonneg i)), Int.toNat_natCast]

theorem searchRow_pad (A : Artifact) :
    searchRow A ((-1 : Int), (0 : ℤ)) = none := by
  unfold searchRow
  rw [dictGetI_neg _ _ (by decide)]

theorem searchRow_inv (A : Artifact) (p : Int × ℤ) (b : Nat × String × ℤ)
    (h : searchRow A p = some b) :
    0 ≤ p.1 ∧ b.1 = p.1.toNat ∧
    dictGet A.product_map p.1.toNat = some b.2.1 ∧ b.2.2 = p.2 := by
  unfold searchRow at h
  rcases hg : dictGetI A.product_map p.1 with _ | code
  · simp [hg] at h
  · simp only [hg] at h
    obtain rfl := Option.some.inj h
    have hpos : ¬ p.1 < 0 := by
      intro hneg
      rw [dictGetI_neg _ _ hneg] at hg
      exact Option.noConfusion hg
    refine ⟨not_lt.mp hpos, rfl, ?_, rfl⟩
    unfold dictGetI at hg
    rw [if_neg hpos] at hg
    exact hg

theorem filterMap_replicate_none {α β : Type} (f : α → Option β) (a : α)
    (h : f a = none) : ∀ m, List.filterMap f (List.replicate m a) = [] := by
  intro m
  induction m with
  | zero => rfl
  | succ m ih => simp [List.replicate_succ, List.filterMap_cons, h, ih]

theorem searchDetailed_eq (A : Artifact) (qv : List ℤ) (k : Nat) :
    searchDetailed A qv k =
      ((sortedHits A.item_vectors qv).take k).filterMap (searchRow A) := by
  unfold searchDetailed faissSearch
  rw [List.filterMap_append,
    filterMap_replicate_none (searchRow A) _ (searchRow_pad A), List.append_nil]

theorem searchDetailed_length (A : Artifact) (qv : List ℤ) (k : Nat) :
    (searchDetailed A qv k).length ≤ min k A.item_vectors.length := by
  rw [searchDetailed_eq]
  have h1 := List.length_filterMap_le (searchRow A)
    ((sortedHits A.item_vectors qv).take k)
  have h2 : ((sortedHits A.item_vectors qv).take k).length =
      min k A.item_vectors.length := by
    rw [List.length_take, (sortedHits_perm A.item_vectors qv).length_eq,
      scoredHits_length]
  omega

theorem searchDetailed_mem (A : Artifact) (qv : List ℤ) (k : Nat) :
    ∀ p ∈ searchDetailed A qv k,
      p.1 < A.item_vectors.length ∧
      dictGet A.product_map p.1 = some p.2.1 ∧
      p.2.2 = sqDist (A.item_vectors.getD p.1 []) qv ∧
      ((p.1 : Int), p.2.2) ∈ (sortedHits A.item_vectors qv).take k := by
  intro p hp
  rw [searchDetailed_eq] at hp
  rcases List.mem_filterMap.mp hp with ⟨hit, hhit, hrow⟩
  obtain ⟨hpos, hfst, hcode, hdist⟩ := searchRow_inv A hit p hrow
  have hmem : hit ∈ scoredHits A.item_vectors qv :=
    ((sortedHits_perm A.item_vectors qv).mem_iff).mp
      ((List.take_sublist _ _).mem hhit)
  rcases (mem_scoredHits A.item_vectors qv hit).mp hmem with ⟨i, hi, hip⟩
  have hfst2 : hit.1 = (i : Int) := by rw [← hip]
  have hsnd2 : hit.2 = sqDist (A.item_vectors.getD i []) qv := by rw [← hip]
  have hp1 : p.1 = i := by rw [hfst, hfst2, Int.toNat_natCast]
  refine ⟨hp1 ▸ hi, ?_, ?_, ?_⟩
  · rw [hfst]
    exact hcode
  · rw [hdist, hsnd2, hp1]
  · have heq : ((p.1 : Int), p.2.2) = hit := by
      rw [hp1, hdist, ← hfst2]
    rw [heq]
    exact hhit

theorem searchDetailed_sorted (A : Artifact) (qv : List ℤ) (k : Nat) :
    List.Pairwise (fun p q => p.2.2 < q.2.2 ∨ (p.2.2 = q.2.2 ∧ p.1 < q.1))
      (searchDetailed A qv k) := by
  rw [searchDetailed_eq, List.pairwise_filterMap]
  have hstrict : List.Pairwise hitLt ((sortedHits A.item_vectors qv).take k) :=
    List.Pairwise.sublist (List.take_sublist _ _)
      (sortedHits_strict A.item_vectors qv)
  refine List.Pairwise.imp ?_ hstrict
  intro a b hab p hp q hq
  rw [Option.mem_def] at hp hq
  obtain ⟨hpa, hp1, -, hp2⟩ := searchRow_inv A a p hp
  obtain ⟨hqb, hq1, -, hq2⟩ := searchRow_inv A b q hq
  simp only [hitLt] at hab
  rcases hab with h | ⟨he, hlt⟩
  · exact Or.inl (by rw [hp2, hq2]; exact h)
  · refine Or.inr ⟨by rw [hp2, hq2, he], ?_⟩
    rw [hp1, hq1]
    have ha' : ((a.1.toNat : Nat) : Int) = a.1 := Int.toNat_of_nonneg hpa
    have hb' : ((b.1.toNat : Nat) : Int) = b.1 := Int.toNat_of_nonneg hqb
    have : ((a.1.toNat : Nat) : Int) < ((b.1.toNat : Nat) : Int) := by
      rw [ha', hb']; exact hlt
    exact_mod_cast this

theorem searchWithVec_eq_map (A : Artifact) (qv : List ℤ) (k : Nat) :
    searchWithVec A qv k =
      (searchDetailed A qv k).map
        (fun p => { stock_code := p.2.1,
                    description := (dictGet A.product_data p.2.1).getD "Unknown",
                    score := p.2.2 }) := by
  unfold searchWithVec searchDetailed
  rw [List.map_filterMap]
  congr 1
  funext p
  unfold searchRow
  rcases h : dictGetI A.product_map p.1 with _ | code
  · simp [h]
  · simp [h]

/-- Claim C2: search compares the query against every stored item vector and
returns at most `k` results sorted ascending by the exact squared Euclidean
distance, ties broken by the lower internal index; every result carries the
registered stock code of its index, and (for artifacts whose product map
covers every index) any index not returned is at least as distant as every
returned one. -/
theorem claim_C2 (A : Artifact) (qv : List ℤ) (k : Nat)
    (hcov : (List.range A.item_vectors.length).all
      (fun i => (dictGet A.product_map i).isSome) = true) :
    SearchOk A qv k ∧ SearchComplete A qv k := by
  constructor
  · refine ⟨?_, searchWithVec_eq_map A qv k, ?_, searchDetailed_sorted A qv k, ?_⟩
    · intro encode query hq
      unfold search
      rw [hq]
    · exact le_trans (searchDetailed_length A qv k) (Nat.min_le_left _ _)
    · intro p hp
      obtain ⟨h1, h2, h3, -⟩ := searchDetailed_mem A qv k p hp
      exact ⟨h1, h2, h3⟩
  · intro i hi hnot p hp
    have hsome : (dictGet A.product_map i).isSome = true := by
      have := List.all_eq_true.mp hcov
      exact this i (List.mem_range.mpr hi)
    obtain ⟨code, hcode⟩ := Option.isSome_iff_exists.mp hsome
    have hmem : ((i : Int), sqDist (A.item_vectors.getD i []) qv) ∈
        sortedHits A.item_vectors qv := by
      rw [(sortedHits_perm A.item_vectors qv).mem_iff,
        mem_scoredHits A.item_vectors qv]
      exact ⟨i, hi, rfl⟩
    rw [← List.take_append_drop k (sortedHits A.item_vectors qv),
      List.mem_append] at hmem
    rcases hmem with htake | hdrop
    · exfalso
      have hrow : searchRow A ((i : Int), sqDist (A.item_vectors.getD i []) qv) =
          some (i, code, sqDist (A.item_vectors.getD i []) qv) := by
        unfold searchRow
        rw [dictGetI_coe, hcode, Int.toNat_natCast]
      have hin : (i, code, sqDist (A.item_vectors.getD i []) qv) ∈
          searchDetailed A qv k := by
        rw [searchDetailed_eq]
        exact List.mem_filterMap.mpr ⟨_, htake, hrow⟩
      exact hnot _ hin rfl
    · have hcross : ∀ a ∈ (sortedHits A.item_vectors qv).take k,
          ∀ b ∈ (sortedHits A.item_vectors qv).drop k, hitLt a b := by
        have hs := sortedHits_strict A.item_vectors qv
        rw [← List.take_append_drop k (sortedHits A.item_vectors qv),
          List.pairwise_append] at hs
        exact hs.2.2
      obtain ⟨-, -, -, htk⟩ := searchDetailed_mem A qv k p hp
      have := hcross _ htk _ hdrop
      simp only [hitLt] at this
      rcases this with h | ⟨he, hlt⟩
      · exact Or.inl h
      · exact Or.inr ⟨he, by exact_mod_cast hlt⟩

/-- Witness for claim C2 at the toy artifact. -/
theorem claim_C2_witness :
    ((List.range toyArtifact.item_vectors.length).all
      (fun i => (dictGet toyArtifact.product_map i).isSome) = true) ∧
    (SearchOk toyArtifact [0, 0] 2 ∧ SearchComplete toyArtifact [0, 0] 2) :=
  ⟨by decide, claim_C2 toyArtifact [0, 0] 2 (by decide)⟩

/-- Claim C10: every stock code search emits is one registered in the
product map (sentinel `-1` rows the index returns when fewer than `k` items
exist are filtered out), and the result never exceeds the item count, so it
may be shorter than `k` but never contains an unmapped id. -/
theorem claim_C10 (A : Artifact) (qv : List ℤ) (k : Nat) :
    (∀ it ∈ searchWithVec A qv k,
      ∃ i, dictGet A.product_map i = some it.stock_code) ∧
    (searchWithVec A qv k).length ≤ min k A.item_vectors.length := by
  constructor
  · intro it hit
    rw [searchWithVec_eq_map] at hit
    rcases List.mem_map.mp hit with ⟨p, hp, rfl⟩
    obtain ⟨-, hcode, -, -⟩ := searchDetailed_mem A qv k p hp
    exact ⟨p.1, hcode⟩
  · rw [searchWithVec_eq_map, List.length_map]
    exact searchDetailed_length A qv k

end RecSys
